import Mathlib

/-!
Verification development for the `go-app-stager` staging tool (command
`appengine-go-staging`).  The tool reads a service manifest, derives a
platform mode (standard vs flexible), runs a breadth-first dependency
analysis of the application import graph once per supported minor
version, vendors the discovered packages into the staging directory, and
finally copies the whole application root into the staging directory.

The Lean definitions below are a shallow embedding of the Go source:

* `joinPath` models `filepath.Join` on clean path components;
* `firstPart` models `strings.SplitN(path, "/", 2)[0]`;
* `skippedPackagesInit` models the `skippedPackages` map literal, and
  `effectiveSkippedPackages` models the one-time mutation
  `skippedPackages["appengine"] = false` performed for flexible mode;
* `analyzeLoop` / `analyze` model the worklist in `analyze`, with the
  resolution context abstracted into two functions (`ctx.ImportDir` and
  `ctx.Import`) and an explicit fuel bound for the while loop;
* `bundleCalls` models `bundle` at the level of the `copyTree`
  invocations it performs;
* `copyTreeGo` models the writes performed by `copyTree` on a modelled
  source directory tree (symlink normalization is outside the model);
* `stagerRun` models the body of `main` after argument/manifest parsing,
  recording the `copyTree` invocations, the process exit code and the
  text written to the standard output stream.
-/

namespace GoAppStager

/-- Models `filepath.Join a b` for clean components: an empty component
or a bare dot is dropped, otherwise the components are joined with a
slash. -/
def joinPath (a b : String) : String :=
  if a = "" ∨ a = "." then b
  else if b = "" ∨ b = "." then a
  else a ++ "/" ++ b

/-- Models `strings.SplitN(path, "/", 2)[0]`: the characters of the
path before the first slash (the whole path when it has no slash). -/
def firstPart (s : String) : String :=
  String.mk (s.toList.takeWhile (fun c => c ≠ '/'))

/-- Models a `*build.Package` value as used by the tool: the package
name, its canonical path, the source root it was found under, its
on-disk directory and its direct package dependencies. -/
structure GoPackage where
  name : String
  importPath : String
  srcRoot : String
  dir : String
  imports : List String
deriving DecidableEq

/-- Models `(*build.Package).IsCommand()`: the package is an executable
entry point exactly when its package name is `main`. -/
def GoPackage.isCommand (p : GoPackage) : Bool :=
  p.name == "main"

/-- Models the `importFrom` struct: one worklist edge, a package path
together with the directory the resolution starts from. -/
structure ImportFrom where
  path : String
  fromDir : String
deriving DecidableEq

/-- Models the subset of the service manifest the tool reads: the legacy
`vm` boolean and the `env` string. -/
structure Config where
  vm : Bool
  env : String
deriving DecidableEq

/-- Models `(*config).isFlex()`. -/
def Config.isFlex (c : Config) : Bool :=
  c.vm || c.env == "flex" || c.env == "flexible" || c.env == "2"

/-- Association-list model of a Go `map[string]bool`: reading a key
yields its stored value, or the zero value `false` when absent.  This
matches the read `ok, _ := m[k]` used by the tool, which consults the
stored value. -/
def mapGetOr (m : List (String × Bool)) (k : String) : Bool :=
  match m.find? (fun kv => kv.1 == k) with
  | some kv => kv.2
  | none => false

/-- Association-list model of a Go map assignment `m[k] = v`: the entry
for `k` is updated in place when present, appended otherwise. -/
def mapSet (m : List (String × Bool)) (k : String) (v : Bool) :
    List (String × Bool) :=
  if m.any (fun kv => kv.1 == k) then
    m.map (fun kv => if kv.1 == k then (kv.1, v) else kv)
  else m ++ [(k, v)]

/-- The `skippedPackages` map literal: top-level package-name prefixes
supplied by the runtime, never staged. -/
def skippedPackagesInit : List (String × Bool) :=
  [("appengine", true), ("appengine_internal", true), ("C", true),
   ("unsafe", true), ("archive", true), ("bufio", true), ("builtin", true),
   ("bytes", true), ("compress", true), ("container", true),
   ("context", true), ("crypto", true), ("database", true), ("debug", true),
   ("encoding", true), ("errors", true), ("expvar", true), ("flag", true),
   ("fmt", true), ("go", true), ("hash", true), ("html", true),
   ("image", true), ("index", true), ("io", true), ("log", true),
   ("math", true), ("mime", true), ("net", true), ("os", true),
   ("path", true), ("reflect", true), ("regexp", true), ("runtime", true),
   ("sort", true), ("strconv", true), ("strings", true), ("sync", true),
   ("syscall", true), ("testing", true), ("text", true), ("time", true),
   ("unicode", true)]

/-- The `skipFiles` map literal: basenames excluded from every tree
copy. -/
def skipFiles : List (String × Bool) :=
  [(".git", true), (".gitconfig", true), (".hg", true),
   (".travis.yml", true)]

/-- The skip map in effect for a run: `main` performs the single
assignment `skippedPackages["appengine"] = false` when the platform mode
is flexible, and leaves the literal untouched otherwise. -/
def effectiveSkippedPackages (flex : Bool) : List (String × Bool) :=
  if flex then mapSet skippedPackagesInit "appengine" false
  else skippedPackagesInit

/-- Models the fields of the `build.Context` value produced by
`buildContext`; the default GOPATH is taken as a parameter. -/
structure BuildContext where
  goarch : String
  goos : String
  goroot : String
  gopath : String
  buildTags : List String
  releaseTags : List String
deriving DecidableEq

/-- Models `releaseTags`: the tags `go1.1` through `go1.minorVersion`. -/
def releaseTags (minorVersion : Nat) : List String :=
  (List.range minorVersion).map (fun i => "go1." ++ toString (i + 1))

/-- Models `buildContext`. -/
def buildContext (gopath : String) (tags : List String)
    (minorVersion : Nat) : BuildContext :=
  ⟨"amd64", "linux", "", gopath, tags, releaseTags minorVersion⟩

/-- The `minorVersions` slice: the analysis runs once per entry. -/
def minorVersions : List Nat := [6, 7, 8]

/-- Models the errors `analyze` can return: failure to resolve the root
directory, the entry-point requirement (the root must be package
`main`), failure to resolve one queued edge, and exhaustion of the
explicit fuel bound given to the loop model. -/
inductive AnalyzeError where
  | rootImport (dir : String)
  | notMain (name : String)
  | importFailed (path fromDir : String)
  | outOfFuel
deriving DecidableEq

/-- The mutable state of the `analyze` worklist loop.  The Go code marks
a pair in the `visited` map immediately before attempting to resolve it,
so `visited`, read in insertion order, is exactly the sequence of
resolution attempts. -/
structure AnalyzeState where
  visited : List ImportFrom
  visitedPackages : List String
  packages : List GoPackage
deriving DecidableEq

/-- Models the worklist loop of `analyze`.  One unit of fuel is one loop
iteration; the Go loop runs until the queue empties.  Per iteration: the
head edge is popped; an already-visited edge is discarded; an edge whose
first path segment reads `true` in the skip map is discarded without
being marked visited; otherwise the edge is marked visited and resolved,
a resolution failure aborts the whole analysis, a package with a new
canonical directory key (source root joined with the canonical path) is
appended to the output, and one new edge per direct dependency of the
resolved package is enqueued with the resolved package directory as
origin. -/
def analyzeLoop (resolve : String → String → Option GoPackage)
    (skip : String → Bool) :
    Nat → List ImportFrom → AnalyzeState →
    AnalyzeState × Option AnalyzeError
  | _, [], st => (st, none)
  | 0, _ :: _, st => (st, some .outOfFuel)
  | fuel + 1, i :: rest, st =>
    if i ∈ st.visited then
      analyzeLoop resolve skip fuel rest st
    else if skip (firstPart i.path) then
      analyzeLoop resolve skip fuel rest st
    else
      match resolve i.path i.fromDir with
      | none =>
        ({ st with visited := st.visited ++ [i] },
         some (.importFailed i.path i.fromDir))
      | some pkg =>
        if joinPath pkg.srcRoot pkg.importPath ∈ st.visitedPackages then
          analyzeLoop resolve skip fuel
            (rest ++ pkg.imports.map (fun q => ⟨q, pkg.dir⟩))
            { st with visited := st.visited ++ [i] }
        else
          analyzeLoop resolve skip fuel
            (rest ++ pkg.imports.map (fun q => ⟨q, pkg.dir⟩))
            { st with visited := st.visited ++ [i],
                      visitedPackages := st.visitedPackages ++
                        [joinPath pkg.srcRoot pkg.importPath],
                      packages := st.packages ++ [pkg] }

/-- The empty worklist state. -/
def emptyAnalyzeState : AnalyzeState := ⟨[], [], []⟩

/-- Models `analyze`: the root directory (taken here as already
absolute, modelling `filepath.Abs`) is resolved as a package via
`importDir` (modelling `ctx.ImportDir`); when `enforceMain` is set and
the root is not a command, the analysis fails before any edge is
processed; otherwise the worklist is seeded with one edge per direct
dependency of the root, with the root directory as origin. -/
def analyze (importDir : String → Option GoPackage)
    (resolve : String → String → Option GoPackage)
    (skip : String → Bool) (fuel : Nat) (dir : String)
    (enforceMain : Bool) : AnalyzeState × Option AnalyzeError :=
  match importDir dir with
  | none => (emptyAnalyzeState, some (.rootImport dir))
  | some pkg =>
    if enforceMain && !pkg.isCommand then
      (emptyAnalyzeState, some (.notMain pkg.name))
    else
      analyzeLoop resolve skip fuel
        (pkg.imports.map (fun p => ⟨p, dir⟩)) emptyAnalyzeState

/-- One `copyTree` invocation: destination root, destination
subdirectory relative to that root, source directory, and the recursive
flag. -/
structure CopyCall where
  dstRoot : String
  dstDir : String
  srcDir : String
  recursive : Bool
deriving DecidableEq

/-- Models `bundle` at the level of the `copyTree` invocations it
performs: for each discovered package, one invocation copying the
package directory (source root joined with canonical path) to the
vendor directory joined with the canonical path, with the recursive
flag set to `false`.  The `src` parameter of the Go function is unused
by its body and is omitted here. -/
def bundleCalls (dst vendorDir : String) (deps : List GoPackage) :
    List CopyCall :=
  deps.map (fun pkg =>
    ⟨dst, joinPath vendorDir pkg.importPath,
     joinPath pkg.srcRoot pkg.importPath, false⟩)

/-- A modelled source directory tree: a leaf file with its contents, or
a directory with a named entry list.  Symbolic links are outside the
model (the Go code replaces them with the metadata of their targets
before copying). -/
inductive FsTree where
  | file (content : String)
  | dir (entries : List (String × FsTree))

/-- Models the file writes performed by `copyTree` on a source entry
list: an entry whose basename reads `true` in `skipFiles` is skipped; a
file entry is written at the destination directory joined with its
basename; a directory entry is descended into only when the recursive
flag is set, and is skipped silently otherwise.  Each write is recorded
as the written path (relative to the destination root) paired with the
content. -/
def copyTreeGo : List (String × FsTree) → String → Bool →
    List (String × String)
  | [], _, _ => []
  | (n, t) :: rest, dstDir, recursive =>
    if mapGetOr skipFiles n then copyTreeGo rest dstDir recursive
    else
      match t with
      | .file c => (joinPath dstDir n, c) :: copyTreeGo rest dstDir recursive
      | .dir sub =>
        if recursive then
          copyTreeGo sub (joinPath dstDir n) recursive ++
            copyTreeGo rest dstDir recursive
        else copyTreeGo rest dstDir recursive

/-- The resolution environment offered to one run: the two resolution
functions of `go/build` the tool calls, each parametrized by the build
context the orchestrator constructs for the pass. -/
structure StagerEnv where
  importDir : BuildContext → String → Option GoPackage
  resolve : BuildContext → String → String → Option GoPackage

/-- One orchestrator pass for one minor version: build the context and
run the dependency analysis. -/
def stagerPass (env : StagerEnv) (gopath : String) (tags : List String)
    (skipMap : List (String × Bool)) (fuel : Nat) (src : String)
    (enforceMain : Bool) (mv : Nat) :
    AnalyzeState × Option AnalyzeError :=
  let ctx := buildContext gopath tags mv
  analyze (env.importDir ctx) (env.resolve ctx)
    (fun s => mapGetOr skipMap s) fuel src enforceMain

/-- Models the per-minor-version loop of `main`: each pass analyzes and
then bundles; the first analysis failure aborts the run (the Go code
exits immediately), keeping the copies already performed by earlier
passes.  Returns the `copyTree` invocations performed and whether all
passes succeeded. -/
def stagerPasses (env : StagerEnv) (gopath : String) (tags : List String)
    (skipMap : List (String × Bool)) (fuel : Nat)
    (src dst vendorDir : String) (enforceMain : Bool) :
    List Nat → List CopyCall × Bool
  | [] => ([], true)
  | mv :: rest =>
    match (stagerPass env gopath tags skipMap fuel src enforceMain mv).2 with
    | some _ => ([], false)
    | none =>
      let r := stagerPasses env gopath tags skipMap fuel src dst vendorDir
        enforceMain rest
      (bundleCalls dst vendorDir
          (stagerPass env gopath tags skipMap fuel src enforceMain mv).1.packages
        ++ r.1, r.2)

/-- The observable outcome of one run of `main` after manifest parsing:
the `copyTree` invocations performed, the process exit code, the lines
written to the standard output stream, and the skip map in effect for
the run. -/
structure StagerResult where
  copies : List CopyCall
  exitCode : Nat
  stdout : List String
  skipMap : List (String × Bool)
deriving DecidableEq

/-- Models the body of `main` after the manifest has been read and
parsed into a `Config`.  For flexible mode the build tag is
`appenginevm`, the entry-point requirement is enforced, the vendor
directory is `_gopath/src`, and the skip map receives its one-time
override; for standard mode the tag is `appengine`, no entry point is
required, and the vendor directory is empty.  The orchestrator then
runs one pass per minor version and finishes with the full recursive
copy of the application root.  The Go code writes nothing to the
standard output stream on any path, which the model records as an empty
`stdout`.  Copy failures are filesystem effects outside this trace
model; an analysis failure exits with code 1 before the final
root copy. -/
def stagerRun (env : StagerEnv) (fuel : Nat) (c : Config)
    (src dst gopath : String) : StagerResult :=
  let flex := c.isFlex
  let tags := if flex then ["appenginevm"] else ["appengine"]
  let enforceMain := flex
  let vendorDir := if flex then joinPath "_gopath" "src" else ""
  let skipMap := effectiveSkippedPackages flex
  let r := stagerPasses env gopath tags skipMap fuel src dst vendorDir
    enforceMain minorVersions
  if r.2 then ⟨r.1 ++ [⟨dst, ".", src, true⟩], 0, [], skipMap⟩
  else ⟨r.1, 1, [], skipMap⟩

/-- The edges the worklist can discover: an edge is reachable when it is
a direct dependency of the root (with the root directory as origin), or
a direct dependency of a package resolved from a reachable edge that is
not discarded by the skip map (with the resolved package directory as
origin). -/
inductive Reaches (resolve : String → String → Option GoPackage)
    (skip : String → Bool) (rootDir : String)
    (rootImports : List String) : ImportFrom → Prop
  | root (p : String) : p ∈ rootImports →
      Reaches resolve skip rootDir rootImports ⟨p, rootDir⟩
  | step (i : ImportFrom) (pkg : GoPackage) (q : String) :
      Reaches resolve skip rootDir rootImports i →
      skip (firstPart i.path) = false →
      resolve i.path i.fromDir = some pkg →
      q ∈ pkg.imports →
      Reaches resolve skip rootDir rootImports ⟨q, pkg.dir⟩

/-! Step equations for `analyzeLoop`, one per branch of the loop body. -/

/-- An empty queue ends the loop successfully, whatever fuel is left. -/
theorem analyzeLoop_nil (resolve : String → String → Option GoPackage)
    (skip : String → Bool) (fuel : Nat) (st : AnalyzeState) :
    analyzeLoop resolve skip fuel [] st = (st, none) := by
  cases fuel <;> rfl

/-- An already-visited head edge is discarded. -/
theorem analyzeLoop_step_visited (resolve : String → String → Option GoPackage)
    (skip : String → Bool) (fuel : Nat) (i : ImportFrom)
    (rest : List ImportFrom) (st : AnalyzeState) (h1 : i ∈ st.visited) :
    analyzeLoop resolve skip (fuel + 1) (i :: rest) st =
      analyzeLoop resolve skip fuel rest st := by
  simp only [analyzeLoop, if_pos h1]

/-- A head edge whose first path segment reads `true` in the skip map is
discarded without being marked visited. -/
theorem analyzeLoop_step_skip (resolve : String → String → Option GoPackage)
    (skip : String → Bool) (fuel : Nat) (i : ImportFrom)
    (rest : List ImportFrom) (st : AnalyzeState) (h1 : i ∉ st.visited)
    (h2 : skip (firstPart i.path) = true) :
    analyzeLoop resolve skip (fuel + 1) (i :: rest) st =
      analyzeLoop resolve skip fuel rest st := by
  simp only [analyzeLoop, if_neg h1, h2, if_pos]

/-- A resolution failure on the head edge aborts the analysis; the edge
was already marked visited. -/
theorem analyzeLoop_step_fail (resolve : String → String → Option GoPackage)
    (skip : String → Bool) (fuel : Nat) (i : ImportFrom)
    (rest : List ImportFrom) (st : AnalyzeState) (h1 : i ∉ st.visited)
    (h2 : skip (firstPart i.path) = false)
    (h3 : resolve i.path i.fromDir = none) :
    analyzeLoop resolve skip (fuel + 1) (i :: rest) st =
      ({ st with visited := st.visited ++ [i] },
       some (.importFailed i.path i.fromDir)) := by
  simp only [analyzeLoop, if_neg h1, h2, h3]
  rfl

/-- The head edge resolves to a package whose canonical directory key
was already recorded: the edge is marked visited and the dependencies
of the package are enqueued, but the package is not appended again. -/
theorem analyzeLoop_step_dup (resolve : String → String → Option GoPackage)
    (skip : String → Bool) (fuel : Nat) (i : ImportFrom)
    (rest : List ImportFrom) (st : AnalyzeState) (pkg : GoPackage)
    (h1 : i ∉ st.visited) (h2 : skip (firstPart i.path) = false)
    (h3 : resolve i.path i.fromDir = some pkg)
    (h4 : joinPath pkg.srcRoot pkg.importPath ∈ st.visitedPackages) :
    analyzeLoop resolve skip (fuel + 1) (i :: rest) st =
      analyzeLoop resolve skip fuel
        (rest ++ pkg.imports.map (fun q => ⟨q, pkg.dir⟩))
        { st with visited := st.visited ++ [i] } := by
  simp only [analyzeLoop, if_neg h1, h2, h3, if_pos h4]
  rfl

/-- The head edge resolves to a package with a new canonical directory
key: the edge is marked visited, the package is appended to the output,
and its dependencies are enqueued. -/
theorem analyzeLoop_step_new (resolve : String → String → Option GoPackage)
    (skip : String → Bool) (fuel : Nat) (i : ImportFrom)
    (rest : List ImportFrom) (st : AnalyzeState) (pkg : GoPackage)
    (h1 : i ∉ st.visited) (h2 : skip (firstPart i.path) = false)
    (h3 : resolve i.path i.fromDir = some pkg)
    (h4 : joinPath pkg.srcRoot pkg.importPath ∉ st.visitedPackages) :
    analyzeLoop resolve skip (fuel + 1) (i :: rest) st =
      analyzeLoop resolve skip fuel
        (rest ++ pkg.imports.map (fun q => ⟨q, pkg.dir⟩))
        { st with visited := st.visited ++ [i],
                  visitedPackages := st.visitedPackages ++
                    [joinPath pkg.srcRoot pkg.importPath],
                  packages := st.packages ++ [pkg] } := by
  simp only [analyzeLoop, if_neg h1, h2, h3, if_neg h4]
  rfl

/-! Invariants of the worklist loop. -/

/-- The visited list only grows during the loop. -/
theorem analyzeLoop_visited_mono (resolve : String → String → Option GoPackage)
    (skip : String → Bool) :
    ∀ (fuel : Nat) (queue : List ImportFrom) (st : AnalyzeState)
      (x : ImportFrom), x ∈ st.visited →
      x ∈ (analyzeLoop resolve skip fuel queue st).1.visited := by
  intro fuel
  induction fuel with
  | zero =>
    intro queue st x hx
    cases queue with
    | nil => simpa [analyzeLoop_nil] using hx
    | cons i rest => simpa [analyzeLoop] using hx
  | succ n ih =>
    intro queue st x hx
    cases queue with
    | nil => simpa [analyzeLoop_nil] using hx
    | cons i rest =>
      by_cases h1 : i ∈ st.visited
      · rw [analyzeLoop_step_visited resolve skip n i rest st h1]
        exact ih rest st x hx
      · by_cases h2 : skip (firstPart i.path) = true
        · rw [analyzeLoop_step_skip resolve skip n i rest st h1 h2]
          exact ih rest st x hx
        · have h2f : skip (firstPart i.path) = false := by
            simpa using h2
          cases h3 : resolve i.path i.fromDir with
          | none =>
            rw [analyzeLoop_step_fail resolve skip n i rest st h1 h2f h3]
            simpa using Or.inl hx
          | some pkg =>
            by_cases h4 : joinPath pkg.srcRoot pkg.importPath ∈
                st.visitedPackages
            · rw [analyzeLoop_step_dup resolve skip n i rest st pkg h1 h2f
                h3 h4]
              exact ih _ _ x (by simp [hx])
            · rw [analyzeLoop_step_new resolve skip n i rest st pkg h1 h2f
                h3 h4]
              exact ih _ _ x (by simp [hx])

/-- The visited list stays free of duplicates: an edge is marked only
after the check that it has not been marked before. -/
theorem analyzeLoop_visited_nodup (resolve : String → String → Option GoPackage)
    (skip : String → Bool) :
    ∀ (fuel : Nat) (queue : List ImportFrom) (st : AnalyzeState),
      st.visited.Nodup →
      (analyzeLoop resolve skip fuel queue st).1.visited.Nodup := by
  intro fuel
  induction fuel with
  | zero =>
    intro queue st hst
    cases queue with
    | nil => simpa [analyzeLoop_nil] using hst
    | cons i rest => simpa [analyzeLoop] using hst
  | succ n ih =>
    intro queue st hst
    cases queue with
    | nil => simpa [analyzeLoop_nil] using hst
    | cons i rest =>
      by_cases h1 : i ∈ st.visited
      · rw [analyzeLoop_step_visited resolve skip n i rest st h1]
        exact ih rest st hst
      · by_cases h2 : skip (firstPart i.path) = true
        · rw [analyzeLoop_step_skip resolve skip n i rest st h1 h2]
          exact ih rest st hst
        · have h2f : skip (firstPart i.path) = false := by
            simpa using h2
          have hstep : (st.visited ++ [i]).Nodup := by
            simp [List.nodup_append, hst, h1]
          cases h3 : resolve i.path i.fromDir with
          | none =>
            rw [analyzeLoop_step_fail resolve skip n i rest st h1 h2f h3]
            simpa using hstep
          | some pkg =>
            by_cases h4 : joinPath pkg.srcRoot pkg.importPath ∈
                st.visitedPackages
            · rw [analyzeLoop_step_dup resolve skip n i rest st pkg h1 h2f
                h3 h4]
              exact ih _ _ hstep
            · rw [analyzeLoop_step_new resolve skip n i rest st pkg h1 h2f
                h3 h4]
              exact ih _ _ hstep

/-- Every edge the loop marks visited has a first path segment that
reads `false` in the skip map: skipped edges are discarded before the
marking step. -/
theorem analyzeLoop_visited_not_skipped
    (resolve : String → String → Option GoPackage) (skip : String → Bool) :
    ∀ (fuel : Nat) (queue : List ImportFrom) (st : AnalyzeState),
      (∀ x ∈ st.visited, skip (firstPart x.path) = false) →
      ∀ x ∈ (analyzeLoop resolve skip fuel queue st).1.visited,
        skip (firstPart x.path) = false := by
  intro fuel
  induction fuel with
  | zero =>
    intro queue st hst
    cases queue with
    | nil => simpa [analyzeLoop_nil] using hst
    | cons i rest => simpa [analyzeLoop] using hst
  | succ n ih =>
    intro queue st hst
    cases queue with
    | nil => simpa [analyzeLoop_nil] using hst
    | cons i rest =>
      by_cases h1 : i ∈ st.visited
      · rw [analyzeLoop_step_visited resolve skip n i rest st h1]
        exact ih rest st hst
      · by_cases h2 : skip (firstPart i.path) = true
        · rw [analyzeLoop_step_skip resolve skip n i rest st h1 h2]
          exact ih rest st hst
        · have h2f : skip (firstPart i.path) = false := by
            simpa using h2
          have hstep : ∀ x ∈ st.visited ++ [i],
              skip (firstPart x.path) = false := by
            intro x hx
            rcases List.mem_append.mp hx with hx | hx
            · exact hst x hx
            · simp only [List.mem_singleton] at hx
              exact hx ▸ h2f
          cases h3 : resolve i.path i.fromDir with
          | none =>
            rw [analyzeLoop_step_fail resolve skip n i rest st h1 h2f h3]
            simpa using hstep
          | some pkg =>
            by_cases h4 : joinPath pkg.srcRoot pkg.importPath ∈
                st.visitedPackages
            · rw [analyzeLoop_step_dup resolve skip n i rest st pkg h1 h2f
                h3 h4]
              exact ih _ _ hstep
            · rw [analyzeLoop_step_new resolve skip n i rest st pkg h1 h2f
                h3 h4]
              exact ih _ _ hstep

/-- Soundness of the worklist: when every queued edge and every visited
edge is reachable, every edge visited by the rest of the run is
reachable. -/
theorem analyzeLoop_visited_reaches
    (resolve : String → String → Option GoPackage) (skip : String → Bool)
    (rootDir : String) (rootImports : List String) :
    ∀ (fuel : Nat) (queue : List ImportFrom) (st : AnalyzeState),
      (∀ x ∈ queue, Reaches resolve skip rootDir rootImports x) →
      (∀ x ∈ st.visited, Reaches resolve skip rootDir rootImports x) →
      ∀ x ∈ (analyzeLoop resolve skip fuel queue st).1.visited,
        Reaches resolve skip rootDir rootImports x := by
  intro fuel
  induction fuel with
  | zero =>
    intro queue st hq hst
    cases queue with
    | nil => simpa [analyzeLoop_nil] using hst
    | cons i rest => simpa [analyzeLoop] using hst
  | succ n ih =>
    intro queue st hq hst
    cases queue with
    | nil => simpa [analyzeLoop_nil] using hst
    | cons i rest =>
      have hqrest : ∀ x ∈ rest, Reaches resolve skip rootDir rootImports x :=
        fun x hx => hq x (List.mem_cons_of_mem i hx)
      have hqi : Reaches resolve skip rootDir rootImports i :=
        hq i (List.mem_cons_self i rest)
      by_cases h1 : i ∈ st.visited
      · rw [analyzeLoop_step_visited resolve skip n i rest st h1]
        exact ih rest st hqrest hst
      · by_cases h2 : skip (firstPart i.path) = true
        · rw [analyzeLoop_step_skip resolve skip n i rest st h1 h2]
          exact ih rest st hqrest hst
        · have h2f : skip (firstPart i.path) = false := by
            simpa using h2
          have hstep : ∀ x ∈ st.visited ++ [i],
              Reaches resolve skip rootDir rootImports x := by
            intro x hx
            rcases List.mem_append.mp hx with hx | hx
            · exact hst x hx
            · simp only [List.mem_singleton] at hx
              exact hx ▸ hqi
          cases h3 : resolve i.path i.fromDir with
          | none =>
            rw [analyzeLoop_step_fail resolve skip n i rest st h1 h2f h3]
            simpa using hstep
          | some pkg =>
            have hqnew : ∀ x ∈ rest ++ pkg.imports.map
                (fun q => (⟨q, pkg.dir⟩ : ImportFrom)),
                Reaches resolve skip rootDir rootImports x := by
              intro x hx
              rcases List.mem_append.mp hx with hx | hx
              · exact hqrest x hx
              · rcases List.mem_map.mp hx with ⟨q, hqmem, rfl⟩
                exact Reaches.step i pkg q hqi h2f h3 hqmem
            by_cases h4 : joinPath pkg.srcRoot pkg.importPath ∈
                st.visitedPackages
            · rw [analyzeLoop_step_dup resolve skip n i rest st pkg h1 h2f
                h3 h4]
              exact ih _ _ hqnew hstep
            · rw [analyzeLoop_step_new resolve skip n i rest st pkg h1 h2f
                h3 h4]
              exact ih _ _ hqnew hstep

/-- Provenance of the output list: every package the loop appends is the
resolution of some visited edge. -/
theorem analyzeLoop_packages_from_visited
    (resolve : String → String → Option GoPackage) (skip : String → Bool) :
    ∀ (fuel : Nat) (queue : List ImportFrom) (st : AnalyzeState),
      (∀ pkg ∈ st.packages, ∃ i ∈ st.visited,
        resolve i.path i.fromDir = some pkg) →
      ∀ pkg ∈ (analyzeLoop resolve skip fuel queue st).1.packages,
        ∃ i ∈ (analyzeLoop resolve skip fuel queue st).1.visited,
          resolve i.path i.fromDir = some pkg := by
  intro fuel
  induction fuel with
  | zero =>
    intro queue st hst
    cases queue with
    | nil => simpa [analyzeLoop_nil] using hst
    | cons i rest => simpa [analyzeLoop] using hst
  | succ n ih =>
    intro queue st hst
    cases queue with
    | nil => simpa [analyzeLoop_nil] using hst
    | cons i rest =>
      by_cases h1 : i ∈ st.visited
      · rw [analyzeLoop_step_visited resolve skip n i rest st h1]
        exact ih rest st hst
      · by_cases h2 : skip (firstPart i.path) = true
        · rw [analyzeLoop_step_skip resolve skip n i rest st h1 h2]
          exact ih rest st hst
        · have h2f : skip (firstPart i.path) = false := by
            simpa using h2
          cases h3 : resolve i.path i.fromDir with
          | none =>
            rw [analyzeLoop_step_fail resolve skip n i rest st h1 h2f h3]
            intro pkg hpkg
            simp only at hpkg
            rcases hst pkg hpkg with ⟨j, hj, hjr⟩
            exact ⟨j, by simp [hj], hjr⟩
          | some pkg0 =>
            have hstep : ∀ pkg ∈ st.packages ++ [pkg0],
                ∃ i2 ∈ st.visited ++ [i],
                  resolve i2.path i2.fromDir = some pkg := by
              intro pkg hpkg
              rcases List.mem_append.mp hpkg with hpkg | hpkg
              · rcases hst pkg hpkg with ⟨j, hj, hjr⟩
                exact ⟨j, by simp [hj], hjr⟩
              · simp only [List.mem_singleton] at hpkg
                exact ⟨i, by simp, hpkg ▸ h3⟩
            have hkeep : ∀ pkg ∈ st.packages,
                ∃ i2 ∈ st.visited ++ [i],
                  resolve i2.path i2.fromDir = some pkg := by
              intro pkg hpkg
              rcases hst pkg hpkg with ⟨j, hj, hjr⟩
              exact ⟨j, by simp [hj], hjr⟩
            by_cases h4 : joinPath pkg0.srcRoot pkg0.importPath ∈
                st.visitedPackages
            · rw [analyzeLoop_step_dup resolve skip n i rest st pkg0 h1 h2f
                h3 h4]
              exact ih _ _ hkeep
            · rw [analyzeLoop_step_new resolve skip n i rest st pkg0 h1 h2f
                h3 h4]
              exact ih _ _ hstep

/-- Success of the loop processes the whole queue: every queued edge
whose first segment is not skipped ends up visited. -/
theorem analyzeLoop_queue_visited
    (resolve : String → String → Option GoPackage) (skip : String → Bool) :
    ∀ (fuel : Nat) (queue : List ImportFrom) (st st1 : AnalyzeState),
      analyzeLoop resolve skip fuel queue st = (st1, none) →
      ∀ i ∈ queue, skip (firstPart i.path) = false → i ∈ st1.visited := by
  intro fuel
  induction fuel with
  | zero =>
    intro queue st st1 hrun
    cases queue with
    | nil => simp
    | cons i rest =>
      simp only [analyzeLoop, Prod.mk.injEq] at hrun
      exact absurd hrun.2 (by simp)
  | succ n ih =>
    intro queue st st1 hrun
    cases queue with
    | nil => simp
    | cons i0 rest =>
      intro i hi hiskip
      rcases List.mem_cons.mp hi with rfl | hi
      · by_cases h1 : i ∈ st.visited
        · rw [analyzeLoop_step_visited resolve skip n i rest st h1] at hrun
          have := analyzeLoop_visited_mono resolve skip n rest st i h1
          rwa [hrun] at this
        · cases h3 : resolve i.path i.fromDir with
          | none =>
            rw [analyzeLoop_step_fail resolve skip n i rest st h1 hiskip
              h3] at hrun
            simp only [Prod.mk.injEq] at hrun
            exact absurd hrun.2 (by simp)
          | some pkg =>
            by_cases h4 : joinPath pkg.srcRoot pkg.importPath ∈
                st.visitedPackages
            · rw [analyzeLoop_step_dup resolve skip n i rest st pkg h1
                hiskip h3 h4] at hrun
              have := analyzeLoop_visited_mono resolve skip n
                (rest ++ pkg.imports.map (fun q => ⟨q, pkg.dir⟩))
                { st with visited := st.visited ++ [i] } i (by simp)
              rwa [hrun] at this
            · rw [analyzeLoop_step_new resolve skip n i rest st pkg h1
                hiskip h3 h4] at hrun
              have := analyzeLoop_visited_mono resolve skip n
                (rest ++ pkg.imports.map (fun q => ⟨q, pkg.dir⟩))
                { st with visited := st.visited ++ [i],
                          visitedPackages := st.visitedPackages ++
                            [joinPath pkg.srcRoot pkg.importPath],
                          packages := st.packages ++ [pkg] } i (by simp)
              rwa [hrun] at this
      · by_cases h1 : i0 ∈ st.visited
        · rw [analyzeLoop_step_visited resolve skip n i0 rest st h1] at hrun
          exact ih rest st st1 hrun i hi hiskip
        · by_cases h2 : skip (firstPart i0.path) = true
          · rw [analyzeLoop_step_skip resolve skip n i0 rest st h1 h2] at hrun
            exact ih rest st st1 hrun i hi hiskip
          · have h2f : skip (firstPart i0.path) = false := by
              simpa using h2
            cases h3 : resolve i0.path i0.fromDir with
            | none =>
              rw [analyzeLoop_step_fail resolve skip n i0 rest st h1 h2f
                h3] at hrun
              simp only [Prod.mk.injEq] at hrun
              exact absurd hrun.2 (by simp)
            | some pkg =>
              by_cases h4 : joinPath pkg.srcRoot pkg.importPath ∈
                  st.visitedPackages
              · rw [analyzeLoop_step_dup resolve skip n i0 rest st pkg h1
                  h2f h3 h4] at hrun
                exact ih _ _ st1 hrun i (by simp [hi]) hiskip
              · rw [analyzeLoop_step_new resolve skip n i0 rest st pkg h1
                  h2f h3 h4] at hrun
                exact ih _ _ st1 hrun i (by simp [hi]) hiskip

/-- Success of the loop closes the visited set under one resolution
step: the dependencies of the package resolved from a newly visited
edge are themselves visited when not skipped. -/
theorem analyzeLoop_successors_visited
    (resolve : String → String → Option GoPackage) (skip : String → Bool) :
    ∀ (fuel : Nat) (queue : List ImportFrom) (st st1 : AnalyzeState),
      analyzeLoop resolve skip fuel queue st = (st1, none) →
      ∀ i pkg, i ∈ st1.visited → i ∉ st.visited →
        resolve i.path i.fromDir = some pkg →
        ∀ q ∈ pkg.imports, skip (firstPart q) = false →
          (⟨q, pkg.dir⟩ : ImportFrom) ∈ st1.visited := by
  intro fuel
  induction fuel with
  | zero =>
    intro queue st st1 hrun
    cases queue with
    | nil =>
      rw [analyzeLoop_nil] at hrun
      simp only [Prod.mk.injEq] at hrun
      intro i pkg hi hnew
      rw [← hrun.1] at hi
      exact absurd hi hnew
    | cons i rest =>
      simp only [analyzeLoop, Prod.mk.injEq] at hrun
      exact absurd hrun.2 (by simp)
  | succ n ih =>
    intro queue st st1 hrun
    cases queue with
    | nil =>
      rw [analyzeLoop_nil] at hrun
      simp only [Prod.mk.injEq] at hrun
      intro i pkg hi hnew
      rw [← hrun.1] at hi
      exact absurd hi hnew
    | cons i0 rest =>
      intro i pkg hi hnew hres q hq hqskip
      by_cases h1 : i0 ∈ st.visited
      · rw [analyzeLoop_step_visited resolve skip n i0 rest st h1] at hrun
        exact ih rest st st1 hrun i pkg hi hnew hres q hq hqskip
      · by_cases h2 : skip (firstPart i0.path) = true
        · rw [analyzeLoop_step_skip resolve skip n i0 rest st h1 h2] at hrun
          exact ih rest st st1 hrun i pkg hi hnew hres q hq hqskip
        · have h2f : skip (firstPart i0.path) = false := by
            simpa using h2
          cases h3 : resolve i0.path i0.fromDir with
          | none =>
            rw [analyzeLoop_step_fail resolve skip n i0 rest st h1 h2f
              h3] at hrun
            simp only [Prod.mk.injEq] at hrun
            exact absurd hrun.2 (by simp)
          | some pkg0 =>
            by_cases heq : i = i0
            · subst heq
              have hpkg : pkg = pkg0 := by
                rw [hres] at h3
                exact Option.some.inj h3
              subst hpkg
              have hmem : (⟨q, pkg.dir⟩ : ImportFrom) ∈
                  rest ++ pkg.imports.map (fun p => (⟨p, pkg.dir⟩ :
                    ImportFrom)) :=
                List.mem_append_right rest
                  (List.mem_map.mpr ⟨q, hq, rfl⟩)
              by_cases h4 : joinPath pkg.srcRoot pkg.importPath ∈
                  st.visitedPackages
              · rw [analyzeLoop_step_dup resolve skip n i rest st pkg h1
                  h2f h3 h4] at hrun
                exact analyzeLoop_queue_visited resolve skip n _ _ st1 hrun
                  _ hmem hqskip
              · rw [analyzeLoop_step_new resolve skip n i rest st pkg h1
                  h2f h3 h4] at hrun
                exact analyzeLoop_queue_visited resolve skip n _ _ st1 hrun
                  _ hmem hqskip
            · have hnew2 : i ∉ st.visited ++ [i0] := by
                intro hmem
                rcases List.mem_append.mp hmem with hmem | hmem
                · exact hnew hmem
                · simp only [List.mem_singleton] at hmem
                  exact heq hmem
              by_cases h4 : joinPath pkg0.srcRoot pkg0.importPath ∈
                  st.visitedPackages
              · rw [analyzeLoop_step_dup resolve skip n i0 rest st pkg0 h1
                  h2f h3 h4] at hrun
                exact ih _ _ st1 hrun i pkg hi hnew2 hres q hq hqskip
              · rw [analyzeLoop_step_new resolve skip n i0 rest st pkg0 h1
                  h2f h3 h4] at hrun
                exact ih _ _ st1 hrun i pkg hi hnew2 hres q hq hqskip

/-! Facts about `analyze` as a whole. -/

/-- Every edge `analyze` marks visited is reachable from the root. -/
theorem analyze_visited_reaches (importDir : String → Option GoPackage)
    (resolve : String → String → Option GoPackage) (skip : String → Bool)
    (fuel : Nat) (dir : String) (em : Bool) (R : GoPackage)
    (himp : importDir dir = some R) :
    ∀ x ∈ (analyze importDir resolve skip fuel dir em).1.visited,
      Reaches resolve skip dir R.imports x := by
  unfold analyze
  rw [himp]
  cases hem : em && !R.isCommand with
  | true =>
    simp only [hem, if_pos, emptyAnalyzeState]
    simp
  | false =>
    simp only [hem]
    simp only [Bool.false_eq_true, if_false]
    refine analyzeLoop_visited_reaches resolve skip dir R.imports fuel _
      emptyAnalyzeState ?_ ?_
    · intro x hx
      rcases List.mem_map.mp hx with ⟨p, hp, rfl⟩
      exact Reaches.root p hp
    · intro x hx
      simp [emptyAnalyzeState] at hx

/-- Every edge `analyze` marks visited has a first path segment that
reads `false` in the skip map. -/
theorem analyze_visited_not_skipped (importDir : String → Option GoPackage)
    (resolve : String → String → Option GoPackage) (skip : String → Bool)
    (fuel : Nat) (dir : String) (em : Bool) :
    ∀ x ∈ (analyze importDir resolve skip fuel dir em).1.visited,
      skip (firstPart x.path) = false := by
  unfold analyze
  cases himp : importDir dir with
  | none => simp [emptyAnalyzeState]
  | some R =>
    cases hem : em && !R.isCommand with
    | true =>
      simp only [hem, if_pos, emptyAnalyzeState]
      simp
    | false =>
      simp only [hem]
      simp only [Bool.false_eq_true, if_false]
      exact analyzeLoop_visited_not_skipped resolve skip fuel _
        emptyAnalyzeState (by intro x hx; simp [emptyAnalyzeState] at hx)

/-- The visited list of `analyze` is free of duplicates: each distinct
edge is marked (and therefore resolved) at most once. -/
theorem analyze_visited_nodup (importDir : String → Option GoPackage)
    (resolve : String → String → Option GoPackage) (skip : String → Bool)
    (fuel : Nat) (dir : String) (em : Bool) :
    (analyze importDir resolve skip fuel dir em).1.visited.Nodup := by
  unfold analyze
  cases himp : importDir dir with
  | none => simp [emptyAnalyzeState]
  | some R =>
    cases hem : em && !R.isCommand with
    | true =>
      simp only [hem, if_pos, emptyAnalyzeState]
      simp
    | false =>
      simp only [hem]
      simp only [Bool.false_eq_true, if_false]
      exact analyzeLoop_visited_nodup resolve skip fuel _
        emptyAnalyzeState (by simp [emptyAnalyzeState])

/-- On a successful run, every reachable edge that is not discarded by
the skip map was marked visited (and therefore resolved). -/
theorem analyze_visited_complete (importDir : String → Option GoPackage)
    (resolve : String → String → Option GoPackage) (skip : String → Bool)
    (fuel : Nat) (dir : String) (em : Bool) (R : GoPackage)
    (st1 : AnalyzeState) (himp : importDir dir = some R)
    (hrun : analyze importDir resolve skip fuel dir em = (st1, none)) :
    ∀ j, Reaches resolve skip dir R.imports j →
      skip (firstPart j.path) = false → j ∈ st1.visited := by
  unfold analyze at hrun
  rw [himp] at hrun
  dsimp only at hrun
  cases hem : em && !R.isCommand with
  | true =>
    rw [hem] at hrun
    simp only [if_pos, Prod.mk.injEq] at hrun
    exact absurd hrun.2 (by simp)
  | false =>
    rw [hem] at hrun
    simp only [Bool.false_eq_true, if_false] at hrun
    intro j hreach
    induction hreach with
    | root p hp =>
      intro hskip
      exact analyzeLoop_queue_visited resolve skip fuel _ _ st1 hrun _
        (List.mem_map.mpr ⟨p, hp, rfl⟩) hskip
    | step i pkg q hr hskipi hres hq ih =>
      intro hskip
      exact analyzeLoop_successors_visited resolve skip fuel _ _ st1 hrun
        i pkg (ih hskipi) (by simp [emptyAnalyzeState]) hres q hq hskip

/-- Every package in the output of `analyze` is the resolution of some
visited edge; the root package itself is never appended. -/
theorem analyze_packages_from_visited (importDir : String → Option GoPackage)
    (resolve : String → String → Option GoPackage) (skip : String → Bool)
    (fuel : Nat) (dir : String) (em : Bool) :
    ∀ pkg ∈ (analyze importDir resolve skip fuel dir em).1.packages,
      ∃ i ∈ (analyze importDir resolve skip fuel dir em).1.visited,
        resolve i.path i.fromDir = some pkg := by
  unfold analyze
  cases himp : importDir dir with
  | none => simp [emptyAnalyzeState]
  | some R =>
    cases hem : em && !R.isCommand with
    | true =>
      simp only [hem, if_pos, emptyAnalyzeState]
      simp
    | false =>
      simp only [hem]
      simp only [Bool.false_eq_true, if_false]
      exact analyzeLoop_packages_from_visited resolve skip fuel _
        emptyAnalyzeState (by intro pkg hpkg; simp [emptyAnalyzeState] at hpkg)

/-! Concrete environments used to witness the theorems below. -/

/-- The skip predicate of a standard-mode run. -/
def skipStd : String → Bool := fun s => mapGetOr skippedPackagesInit s

/-- A library package with no dependencies, found under `/gp/src`. -/
def pkgW : GoPackage := ⟨"p", "x/p", "/gp/src", "/gp/src/x/p", []⟩

/-- A root command package importing `x/p`. -/
def rootW : GoPackage := ⟨"main", "", "", "/app", ["x/p"]⟩

/-- Root resolution for the one-package environment. -/
def importDirW : String → Option GoPackage :=
  fun d => if d == "/app" then some rootW else none

/-- Edge resolution for the one-package environment. -/
def resolveW : String → String → Option GoPackage :=
  fun p _ => if p == "x/p" then some pkgW else none

/-- A root package whose only dependency is the runtime-provided `fmt`. -/
def rootF : GoPackage := ⟨"main", "", "", "/app", ["fmt"]⟩

/-- Root resolution for the `fmt`-only environment. -/
def importDirF : String → Option GoPackage :=
  fun d => if d == "/app" then some rootF else none

/-- Edge resolution for the `fmt`-only environment: nothing resolves. -/
def resolveF : String → String → Option GoPackage := fun _ _ => none

/-- A root library package (not a command). -/
def rootLib : GoPackage := ⟨"www", "", "", "/app", ["x/p"]⟩

/-- Root resolution for the library-root environment. -/
def importDirLib : String → Option GoPackage :=
  fun d => if d == "/app" then some rootLib else none

/-! Claim C5. -/

/-- C5 (as written, refuted here): the number of resolution attempts of
one pass would equal the number of distinct (path, origin) pairs
reachable from the root.  In the environment whose root imports only the
runtime-provided `fmt`, the pair (fmt, /app) is reachable, yet the pass
performs zero resolution attempts, because the skip check discards the
edge before it is marked visited and resolved. -/
theorem attempts_ne_reachable_count :
    ¬ ((analyze importDirF resolveF skipStd 8 "/app" false).1.visited.length =
        Set.ncard {i : ImportFrom |
          Reaches resolveF skipStd "/app" rootF.imports i}) := by
  have h1 : (analyze importDirF resolveF skipStd 8 "/app"
      false).1.visited.length = 0 := by decide
  have h2 : {i : ImportFrom |
      Reaches resolveF skipStd "/app" rootF.imports i} =
      {(⟨"fmt", "/app"⟩ : ImportFrom)} := by
    ext i
    simp only [Set.mem_setOf_eq, Set.mem_singleton_iff]
    constructor
    · intro h
      cases h with
      | root p hp =>
        have hp2 : p = "fmt" := by simpa [rootF] using hp
        rw [hp2]
      | step i pkg q hr hs hres hq =>
        exact absurd hres (by simp [resolveF])
    · rintro rfl
      exact Reaches.root "fmt" (by simp [rootF])
  rw [h1, h2, Set.ncard_singleton]
  omega

/-- C5 (amended): one Dependency Analyzer pass marks each distinct
(path, origin) pair visited at most once, and on a successful pass the
pairs marked visited (equivalently, the resolution attempts, since the
code resolves a pair exactly when it marks it) are exactly the distinct
pairs reachable from the root whose first path segment is not in the
skip map; reachable pairs whose first segment is in the skip map are
discarded without any resolution attempt. -/
theorem analyze_attempts_characterization
    (importDir : String → Option GoPackage)
    (resolve : String → String → Option GoPackage) (skip : String → Bool)
    (fuel : Nat) (dir : String) (em : Bool) (R : GoPackage)
    (st1 : AnalyzeState) (himp : importDir dir = some R)
    (hrun : analyze importDir resolve skip fuel dir em = (st1, none)) :
    st1.visited.Nodup ∧
    ∀ i : ImportFrom, i ∈ st1.visited ↔
      (Reaches resolve skip dir R.imports i ∧
        skip (firstPart i.path) = false) := by
  constructor
  · have h := analyze_visited_nodup importDir resolve skip fuel dir em
    rwa [hrun] at h
  · intro i
    constructor
    · intro hi
      refine ⟨?_, ?_⟩
      · have h := analyze_visited_reaches importDir resolve skip fuel dir
          em R himp
        rw [hrun] at h
        exact h i hi
      · have h := analyze_visited_not_skipped importDir resolve skip fuel
          dir em
        rw [hrun] at h
        exact h i hi
    · intro hi
      exact analyze_visited_complete importDir resolve skip fuel dir em R
        st1 himp hrun i hi.1 hi.2

/-- Witness for the amended C5 theorem at a concrete one-package
environment. -/
theorem analyze_attempts_characterization_witness :
    (importDirW "/app" = some rootW) ∧
    (analyze importDirW resolveW skipStd 8 "/app" false =
      (⟨[⟨"x/p", "/app"⟩], ["/gp/src/x/p"], [pkgW]⟩, none)) ∧
    ((⟨[⟨"x/p", "/app"⟩], ["/gp/src/x/p"], [pkgW]⟩ :
        AnalyzeState).visited.Nodup ∧
      ∀ i : ImportFrom,
        i ∈ (⟨[⟨"x/p", "/app"⟩], ["/gp/src/x/p"], [pkgW]⟩ :
          AnalyzeState).visited ↔
        (Reaches resolveW skipStd "/app" rootW.imports i ∧
          skipStd (firstPart i.path) = false)) :=
  ⟨by decide, by decide,
    analyze_attempts_characterization importDirW resolveW skipStd 8 "/app"
      false rootW _ (by decide) (by decide)⟩

/-! Claim C8. -/

/-- C8: no package whose canonical path has a first segment reading
`true` in the skip map ever appears in the output list of one pass.  The
side condition mirrors `go/build`: resolving a path yields a package
whose canonical path is the requested path. -/
theorem output_never_skipped (importDir : String → Option GoPackage)
    (resolve : String → String → Option GoPackage)
    (m : List (String × Bool)) (fuel : Nat) (dir : String) (em : Bool)
    (hwf : ∀ p d pkg, resolve p d = some pkg → pkg.importPath = p) :
    ∀ pkg ∈ (analyze importDir resolve (fun s => mapGetOr m s) fuel dir
        em).1.packages,
      mapGetOr m (firstPart pkg.importPath) = false := by
  intro pkg hpkg
  rcases analyze_packages_from_visited importDir resolve
    (fun s => mapGetOr m s) fuel dir em pkg hpkg with ⟨i, hi, hres⟩
  rw [hwf i.path i.fromDir pkg hres]
  exact analyze_visited_not_skipped importDir resolve
    (fun s => mapGetOr m s) fuel dir em i hi

/-- Witness for C8 at the concrete one-package environment. -/
theorem output_never_skipped_witness :
    (∀ p d pkg, resolveW p d = some pkg → pkg.importPath = p) ∧
    ∀ pkg ∈ (analyze importDirW resolveW
        (fun s => mapGetOr skippedPackagesInit s) 8 "/app"
        false).1.packages,
      mapGetOr skippedPackagesInit (firstPart pkg.importPath) = false := by
  have hwf : ∀ p d pkg, resolveW p d = some pkg → pkg.importPath = p := by
    intro p d pkg h
    simp only [resolveW] at h
    by_cases hc : p = "x/p"
    · subst hc
      simp only [beq_self_eq_true, if_pos, Option.some.injEq] at h
      rw [← h]
      rfl
    · rw [if_neg (by simpa using hc)] at h
      exact absurd h (by simp)
  exact ⟨hwf, output_never_skipped importDirW resolveW skippedPackagesInit
    8 "/app" false hwf⟩

/-! Claim C9. -/

/-- C9: with the entry-point requirement enforced and a root package
that is not a command, `analyze` fails with the entry-point error
(modelling EntryPointRequiredError), with no edge resolved and no
partial output: the returned state is empty. -/
theorem enforce_main_early_error (importDir : String → Option GoPackage)
    (resolve : String → String → Option GoPackage) (skip : String → Bool)
    (fuel : Nat) (dir : String) (R : GoPackage)
    (h1 : importDir dir = some R) (h2 : R.isCommand = false) :
    analyze importDir resolve skip fuel dir true =
      (emptyAnalyzeState, some (.notMain R.name)) ∧
    (analyze importDir resolve skip fuel dir true).1.visited = [] ∧
    (analyze importDir resolve skip fuel dir true).1.packages = [] := by
  have hmain : analyze importDir resolve skip fuel dir true =
      (emptyAnalyzeState, some (.notMain R.name)) := by
    unfold analyze
    rw [h1]
    simp [h2]
  exact ⟨hmain, by rw [hmain]; rfl, by rw [hmain]; rfl⟩

/-- Witness for C9: a root package named `www` is rejected before any
resolution. -/
theorem enforce_main_early_error_witness :
    (importDirLib "/app" = some rootLib) ∧ (rootLib.isCommand = false) ∧
    ((analyze importDirLib resolveW skipStd 8 "/app" true =
        (emptyAnalyzeState, some (.notMain rootLib.name))) ∧
      (analyze importDirLib resolveW skipStd 8 "/app" true).1.visited = [] ∧
      (analyze importDirLib resolveW skipStd 8 "/app" true).1.packages
        = []) :=
  ⟨by decide, by decide,
    enforce_main_early_error importDirLib resolveW skipStd 8 "/app" rootLib
      (by decide) (by decide)⟩

/-! Claim C10. -/

/-- C10: on a successful pass, every package in the output list is the
resolution of some reachable, non-skipped edge; in particular the root
package obtained from the root directory resolution is never appended on
its own, and can appear in the output only when some transitively
discovered package names the root canonical path among its
dependencies. -/
theorem output_only_from_resolved_edges
    (importDir : String → Option GoPackage)
    (resolve : String → String → Option GoPackage) (skip : String → Bool)
    (fuel : Nat) (dir : String) (em : Bool) (R : GoPackage)
    (st1 : AnalyzeState) (himp : importDir dir = some R)
    (hrun : analyze importDir resolve skip fuel dir em = (st1, none)) :
    ∀ pkg ∈ st1.packages, ∃ i : ImportFrom,
      Reaches resolve skip dir R.imports i ∧
      skip (firstPart i.path) = false ∧
      resolve i.path i.fromDir = some pkg := by
  intro pkg hpkg
  have hprov := analyze_packages_from_visited importDir resolve skip fuel
    dir em
  rw [hrun] at hprov
  rcases hprov pkg hpkg with ⟨i, hi, hres⟩
  have hreach := analyze_visited_reaches importDir resolve skip fuel dir
    em R himp
  rw [hrun] at hreach
  have hskip := analyze_visited_not_skipped importDir resolve skip fuel
    dir em
  rw [hrun] at hskip
  exact ⟨i, hreach i hi, hskip i hi, hres⟩

/-- Witness for C10 at the concrete one-package environment. -/
theorem output_only_from_resolved_edges_witness :
    (analyze importDirW resolveW skipStd 8 "/app" false =
      (⟨[⟨"x/p", "/app"⟩], ["/gp/src/x/p"], [pkgW]⟩, none)) ∧
    ∀ pkg ∈ [pkgW], ∃ i : ImportFrom,
      Reaches resolveW skipStd "/app" rootW.imports i ∧
      skipStd (firstPart i.path) = false ∧
      resolveW i.path i.fromDir = some pkg :=
  ⟨by decide,
    output_only_from_resolved_edges importDirW resolveW skipStd 8 "/app"
      false rootW ⟨[⟨"x/p", "/app"⟩], ["/gp/src/x/p"], [pkgW]⟩ (by decide)
      (by decide)⟩

/-! Claim C6. -/

/-- C6: on the two-package cycle (the root imports A, A imports B, and
B imports A), the analysis terminates without error once the fuel covers
the four loop iterations the cycle needs, and the output lists A and B
exactly once each.  The back edge to A is dequeued as the distinct pair
(pA, B dir), caught by the canonical-directory check rather than by the
edge check, and the final re-enqueued pair (pB, A dir) is discarded by
the visited-edge check, so the loop empties its queue. -/
theorem analyze_cycle_terminates (importDir : String → Option GoPackage)
    (resolve : String → String → Option GoPackage) (skip : String → Bool)
    (rd : String) (R A B : GoPackage) (pA pB : String)
    (hroot : importDir rd = some R) (hR : R.imports = [pA])
    (hA : resolve pA rd = some A) (hAi : A.imports = [pB])
    (hB : resolve pB A.dir = some B) (hBi : B.imports = [pA])
    (hA2 : resolve pA B.dir = some A)
    (hsA : skip (firstPart pA) = false) (hsB : skip (firstPart pB) = false)
    (h12 : (⟨pA, rd⟩ : ImportFrom) ≠ ⟨pB, A.dir⟩)
    (h13 : (⟨pA, rd⟩ : ImportFrom) ≠ ⟨pA, B.dir⟩)
    (h23 : (⟨pB, A.dir⟩ : ImportFrom) ≠ ⟨pA, B.dir⟩)
    (hname : joinPath A.srcRoot A.importPath ≠
      joinPath B.srcRoot B.importPath)
    (fuel : Nat) (hfuel : 4 ≤ fuel) :
    analyze importDir resolve skip fuel rd false =
      (⟨[⟨pA, rd⟩, ⟨pB, A.dir⟩, ⟨pA, B.dir⟩],
        [joinPath A.srcRoot A.importPath, joinPath B.srcRoot B.importPath],
        [A, B]⟩, none) ∧
    (analyze importDir resolve skip fuel rd false).1.packages.count A = 1 ∧
    (analyze importDir resolve skip fuel rd false).1.packages.count B
      = 1 := by
  have hAB : A ≠ B := fun h => hname (by rw [h])
  obtain ⟨k, rfl⟩ : ∃ k, fuel = k + 4 := ⟨fuel - 4, by omega⟩
  have hmain : analyze importDir resolve skip (k + 4) rd false =
      (⟨[⟨pA, rd⟩, ⟨pB, A.dir⟩, ⟨pA, B.dir⟩],
        [joinPath A.srcRoot A.importPath, joinPath B.srcRoot B.importPath],
        [A, B]⟩, none) := by
    unfold analyze
    rw [hroot]
    dsimp only
    rw [if_neg (by simp), hR]
    rw [show k + 4 = (k + 3) + 1 from rfl]
    rw [List.map_cons, List.map_nil]
    rw [analyzeLoop_step_new resolve skip (k + 3) ⟨pA, rd⟩ []
      emptyAnalyzeState A (by simp [emptyAnalyzeState]) hsA hA
      (by simp [emptyAnalyzeState])]
    simp only [emptyAnalyzeState, List.nil_append, hAi, List.map_cons,
      List.map_nil]
    rw [show k + 3 = (k + 2) + 1 from rfl]
    rw [analyzeLoop_step_new resolve skip (k + 2) ⟨pB, A.dir⟩ []
      (⟨[⟨pA, rd⟩], [joinPath A.srcRoot A.importPath], [A]⟩ : AnalyzeState)
      B (by simp only [List.mem_singleton]; exact fun h => h12 h.symm) hsB
      hB (by simp only [List.mem_singleton]; exact fun h => hname h.symm)]
    simp only [List.nil_append, List.singleton_append, List.cons_append,
      hBi, List.map_cons, List.map_nil]
    rw [show k + 2 = (k + 1) + 1 from rfl]
    rw [analyzeLoop_step_dup resolve skip (k + 1) ⟨pA, B.dir⟩ []
      (⟨[⟨pA, rd⟩, ⟨pB, A.dir⟩],
        [joinPath A.srcRoot A.importPath, joinPath B.srcRoot B.importPath],
        [A, B]⟩ : AnalyzeState) A
      (by
        intro hmem
        rcases List.mem_cons.mp hmem with h | hmem
        · exact h13 h.symm
        · exact h23 (List.mem_singleton.mp hmem).symm)
      hsA hA2 (by simp)]
    simp only [List.nil_append, List.singleton_append, List.cons_append,
      hAi, List.map_cons, List.map_nil]
    rw [show k + 1 = k + 1 from rfl]
    rw [analyzeLoop_step_visited resolve skip k ⟨pB, A.dir⟩ []
      (⟨[⟨pA, rd⟩, ⟨pB, A.dir⟩, ⟨pA, B.dir⟩],
        [joinPath A.srcRoot A.importPath, joinPath B.srcRoot B.importPath],
        [A, B]⟩ : AnalyzeState) (by simp)]
    rw [analyzeLoop_nil]
  have hBA : B ≠ A := fun h => hAB h.symm
  refine ⟨hmain, ?_, ?_⟩
  · rw [hmain]
    simp [List.count_cons, hAB, hBA]
  · rw [hmain]
    simp [List.count_cons, hAB, hBA]

/-- The cyclic package `x/a`, importing `x/b`. -/
def pkgA : GoPackage := ⟨"a", "x/a", "/gp/src", "/gp/src/x/a", ["x/b"]⟩

/-- The cyclic package `x/b`, importing `x/a`. -/
def pkgB : GoPackage := ⟨"b", "x/b", "/gp/src", "/gp/src/x/b", ["x/a"]⟩

/-- A root command importing `x/a`. -/
def rootCyc : GoPackage := ⟨"main", "", "", "/app", ["x/a"]⟩

/-- Root resolution for the cyclic environment. -/
def importDirCyc : String → Option GoPackage :=
  fun d => if d == "/app" then some rootCyc else none

/-- Edge resolution for the cyclic environment. -/
def resolveCyc : String → String → Option GoPackage :=
  fun p _ =>
    if p == "x/a" then some pkgA
    else if p == "x/b" then some pkgB else none

/-- Witness for C6 on the concrete two-package cycle. -/
theorem analyze_cycle_terminates_witness :
    (importDirCyc "/app" = some rootCyc) ∧
    (resolveCyc "x/b" pkgA.dir = some pkgB) ∧
    (analyze importDirCyc resolveCyc skipStd 8 "/app" false).1.packages.count
      pkgA = 1 ∧
    (analyze importDirCyc resolveCyc skipStd 8 "/app" false).1.packages.count
      pkgB = 1 := by
  have h := analyze_cycle_terminates importDirCyc resolveCyc skipStd "/app"
    rootCyc pkgA pkgB "x/a" "x/b" (by decide) (by decide) (by decide)
    (by decide) (by decide) (by decide) (by decide) (by decide) (by decide)
    (by decide) (by decide) (by decide) (by decide) 8 (by decide)
  exact ⟨by decide, by decide, h.2.1, h.2.2⟩

/-! Claim C7. -/

/-- C7: on the diamond (the root imports A and B, both importing C, with
C resolving to the same package from both origins), the analysis
succeeds and the output lists C exactly once, whichever of A and B the
root names first.  The second edge to C is dequeued but its package is
suppressed by the canonical-directory key (source root joined with
canonical path). -/
theorem analyze_diamond_once (importDir : String → Option GoPackage)
    (resolve : String → String → Option GoPackage) (skip : String → Bool)
    (rd : String) (R A B C : GoPackage) (pA pB pC : String)
    (hroot : importDir rd = some R)
    (hR : R.imports = [pA, pB] ∨ R.imports = [pB, pA])
    (hA : resolve pA rd = some A) (hB : resolve pB rd = some B)
    (hCA : resolve pC A.dir = some C) (hCB : resolve pC B.dir = some C)
    (hAi : A.imports = [pC]) (hBi : B.imports = [pC]) (hCi : C.imports = [])
    (hsA : skip (firstPart pA) = false) (hsB : skip (firstPart pB) = false)
    (hsC : skip (firstPart pC) = false)
    (h12 : (⟨pA, rd⟩ : ImportFrom) ≠ ⟨pB, rd⟩)
    (h13 : (⟨pA, rd⟩ : ImportFrom) ≠ ⟨pC, A.dir⟩)
    (h14 : (⟨pA, rd⟩ : ImportFrom) ≠ ⟨pC, B.dir⟩)
    (h23 : (⟨pB, rd⟩ : ImportFrom) ≠ ⟨pC, A.dir⟩)
    (h24 : (⟨pB, rd⟩ : ImportFrom) ≠ ⟨pC, B.dir⟩)
    (h34 : (⟨pC, A.dir⟩ : ImportFrom) ≠ ⟨pC, B.dir⟩)
    (hnAB : joinPath A.srcRoot A.importPath ≠
      joinPath B.srcRoot B.importPath)
    (hnAC : joinPath A.srcRoot A.importPath ≠
      joinPath C.srcRoot C.importPath)
    (hnBC : joinPath B.srcRoot B.importPath ≠
      joinPath C.srcRoot C.importPath)
    (fuel : Nat) (hfuel : 4 ≤ fuel) :
    (analyze importDir resolve skip fuel rd false).2 = none ∧
    (analyze importDir resolve skip fuel rd false).1.packages.count C
      = 1 := by
  have hAC : A ≠ C := fun h => hnAC (by rw [h])
  have hBC : B ≠ C := fun h => hnBC (by rw [h])
  obtain ⟨k, rfl⟩ : ∃ k, fuel = k + 4 := ⟨fuel - 4, by omega⟩
  rcases hR with hR | hR
  · have hmain : analyze importDir resolve skip (k + 4) rd false =
        (⟨[⟨pA, rd⟩, ⟨pB, rd⟩, ⟨pC, A.dir⟩, ⟨pC, B.dir⟩],
          [joinPath A.srcRoot A.importPath,
           joinPath B.srcRoot B.importPath,
           joinPath C.srcRoot C.importPath],
          [A, B, C]⟩, none) := by
      unfold analyze
      rw [hroot]
      dsimp only
      rw [if_neg (by simp), hR]
      rw [show k + 4 = (k + 3) + 1 from rfl]
      rw [List.map_cons, List.map_cons, List.map_nil]
      rw [analyzeLoop_step_new resolve skip (k + 3) ⟨pA, rd⟩ [⟨pB, rd⟩]
        emptyAnalyzeState A (by simp [emptyAnalyzeState]) hsA hA
        (by simp [emptyAnalyzeState])]
      simp only [emptyAnalyzeState, List.nil_append, List.singleton_append,
        List.cons_append, hAi, List.map_cons, List.map_nil]
      rw [show k + 3 = (k + 2) + 1 from rfl]
      rw [analyzeLoop_step_new resolve skip (k + 2) ⟨pB, rd⟩ [⟨pC, A.dir⟩]
        (⟨[⟨pA, rd⟩], [joinPath A.srcRoot A.importPath], [A]⟩ :
          AnalyzeState) B
        (by simp only [List.mem_singleton]; exact fun h => h12 h.symm) hsB
        hB (by simp only [List.mem_singleton]; exact fun h => hnAB h.symm)]
      simp only [List.nil_append, List.singleton_append, List.cons_append,
        hBi, List.map_cons, List.map_nil]
      rw [show k + 2 = (k + 1) + 1 from rfl]
      rw [analyzeLoop_step_new resolve skip (k + 1) ⟨pC, A.dir⟩
        [⟨pC, B.dir⟩]
        (⟨[⟨pA, rd⟩, ⟨pB, rd⟩],
          [joinPath A.srcRoot A.importPath,
           joinPath B.srcRoot B.importPath], [A, B]⟩ : AnalyzeState) C
        (by
          intro hmem
          rcases List.mem_cons.mp hmem with h | hmem
          · exact h13 h.symm
          · exact h23 (List.mem_singleton.mp hmem).symm)
        hsC hCA
        (by
          intro hmem
          rcases List.mem_cons.mp hmem with h | hmem
          · exact hnAC h.symm
          · exact hnBC (List.mem_singleton.mp hmem).symm)]
      simp only [List.nil_append, List.singleton_append, List.cons_append,
        hCi, List.map_nil, List.append_nil]
      rw [show k + 1 = k + 1 from rfl]
      rw [analyzeLoop_step_dup resolve skip k ⟨pC, B.dir⟩ []
        (⟨[⟨pA, rd⟩, ⟨pB, rd⟩, ⟨pC, A.dir⟩],
          [joinPath A.srcRoot A.importPath,
           joinPath B.srcRoot B.importPath,
           joinPath C.srcRoot C.importPath],
          [A, B, C]⟩ : AnalyzeState) C
        (by
          intro hmem
          rcases List.mem_cons.mp hmem with h | hmem
          · exact h14 h.symm
          · rcases List.mem_cons.mp hmem with h | hmem
            · exact h24 h.symm
            · exact h34 (List.mem_singleton.mp hmem).symm)
        hsC hCB (by simp)]
      simp only [List.nil_append, List.singleton_append, List.cons_append,
        hCi, List.map_nil, List.append_nil]
      rw [analyzeLoop_nil]
    constructor
    · rw [hmain]
    · rw [hmain]
      have hCA2 : C ≠ A := fun h => hAC h.symm
      have hCB2 : C ≠ B := fun h => hBC h.symm
      simp [List.count_cons, hAC, hBC, hCA2, hCB2]
  · have hmain : analyze importDir resolve skip (k + 4) rd false =
        (⟨[⟨pB, rd⟩, ⟨pA, rd⟩, ⟨pC, B.dir⟩, ⟨pC, A.dir⟩],
          [joinPath B.srcRoot B.importPath,
           joinPath A.srcRoot A.importPath,
           joinPath C.srcRoot C.importPath],
          [B, A, C]⟩, none) := by
      unfold analyze
      rw [hroot]
      dsimp only
      rw [if_neg (by simp), hR]
      rw [show k + 4 = (k + 3) + 1 from rfl]
      rw [List.map_cons, List.map_cons, List.map_nil]
      rw [analyzeLoop_step_new resolve skip (k + 3) ⟨pB, rd⟩ [⟨pA, rd⟩]
        emptyAnalyzeState B (by simp [emptyAnalyzeState]) hsB hB
        (by simp [emptyAnalyzeState])]
      simp only [emptyAnalyzeState, List.nil_append, List.singleton_append,
        List.cons_append, hBi, List.map_cons, List.map_nil]
      rw [show k + 3 = (k + 2) + 1 from rfl]
      rw [analyzeLoop_step_new resolve skip (k + 2) ⟨pA, rd⟩ [⟨pC, B.dir⟩]
        (⟨[⟨pB, rd⟩], [joinPath B.srcRoot B.importPath], [B]⟩ :
          AnalyzeState) A
        (by simp only [List.mem_singleton]; exact fun h => h12 h) hsA hA
        (by simp only [List.mem_singleton]; exact fun h => hnAB h)]
      simp only [List.nil_append, List.singleton_append, List.cons_append,
        hAi, List.map_cons, List.map_nil]
      rw [show k + 2 = (k + 1) + 1 from rfl]
      rw [analyzeLoop_step_new resolve skip (k + 1) ⟨pC, B.dir⟩
        [⟨pC, A.dir⟩]
        (⟨[⟨pB, rd⟩, ⟨pA, rd⟩],
          [joinPath B.srcRoot B.importPath,
           joinPath A.srcRoot A.importPath], [B, A]⟩ : AnalyzeState) C
        (by
          intro hmem
          rcases List.mem_cons.mp hmem with h | hmem
          · exact h24 h.symm
          · exact h14 (List.mem_singleton.mp hmem).symm)
        hsC hCB
        (by
          intro hmem
          rcases List.mem_cons.mp hmem with h | hmem
          · exact hnBC h.symm
          · exact hnAC (List.mem_singleton.mp hmem).symm)]
      simp only [List.nil_append, List.singleton_append, List.cons_append,
        hCi, List.map_nil, List.append_nil]
      rw [show k + 1 = k + 1 from rfl]
      rw [analyzeLoop_step_dup resolve skip k ⟨pC, A.dir⟩ []
        (⟨[⟨pB, rd⟩, ⟨pA, rd⟩, ⟨pC, B.dir⟩],
          [joinPath B.srcRoot B.importPath,
           joinPath A.srcRoot A.importPath,
           joinPath C.srcRoot C.importPath],
          [B, A, C]⟩ : AnalyzeState) C
        (by
          intro hmem
          rcases List.mem_cons.mp hmem with h | hmem
          · exact h23 h.symm
          · rcases List.mem_cons.mp hmem with h | hmem
            · exact h13 h.symm
            · exact h34 (List.mem_singleton.mp hmem))
        hsC hCA (by simp)]
      simp only [List.nil_append, List.singleton_append, List.cons_append,
        hCi, List.map_nil, List.append_nil]
      rw [analyzeLoop_nil]
    constructor
    · rw [hmain]
    · rw [hmain]
      have hCA2 : C ≠ A := fun h => hAC h.symm
      have hCB2 : C ≠ B := fun h => hBC h.symm
      simp [List.count_cons, hAC, hBC, hCA2, hCB2]

/-- The diamond package `y/a`, importing `y/c`. -/
def pkgDA : GoPackage := ⟨"a", "y/a", "/gp/src", "/gp/src/y/a", ["y/c"]⟩

/-- The diamond package `y/b`, importing `y/c`. -/
def pkgDB : GoPackage := ⟨"b", "y/b", "/gp/src", "/gp/src/y/b", ["y/c"]⟩

/-- The shared diamond package `y/c`, with no dependencies. -/
def pkgDC : GoPackage := ⟨"c", "y/c", "/gp/src", "/gp/src/y/c", []⟩

/-- A root command importing `y/a` and `y/b`. -/
def rootDia : GoPackage := ⟨"main", "", "", "/app", ["y/a", "y/b"]⟩

/-- Root resolution for the diamond environment. -/
def importDirDia : String → Option GoPackage :=
  fun d => if d == "/app" then some rootDia else none

/-- Edge resolution for the diamond environment. -/
def resolveDia : String → String → Option GoPackage :=
  fun p _ =>
    if p == "y/a" then some pkgDA
    else if p == "y/b" then some pkgDB
    else if p == "y/c" then some pkgDC else none

/-- Witness for C7 on the concrete diamond. -/
theorem analyze_diamond_once_witness :
    (importDirDia "/app" = some rootDia) ∧
    (resolveDia "y/c" pkgDA.dir = some pkgDC) ∧
    (resolveDia "y/c" pkgDB.dir = some pkgDC) ∧
    (analyze importDirDia resolveDia skipStd 8 "/app" false).2 = none ∧
    (analyze importDirDia resolveDia skipStd 8 "/app" false).1.packages.count
      pkgDC = 1 := by
  have h := analyze_diamond_once importDirDia resolveDia skipStd "/app"
    rootDia pkgDA pkgDB pkgDC "y/a" "y/b" "y/c" (by decide)
    (Or.inl (by decide)) (by decide) (by decide) (by decide) (by decide)
    (by decide) (by decide) (by decide) (by decide) (by decide) (by decide)
    (by decide) (by decide) (by decide) (by decide) (by decide) (by decide)
    (by decide) (by decide) (by decide) 8 (by decide)
  exact ⟨by decide, by decide, by decide, h.1, h.2⟩

/-! Concrete orchestrator environments. -/

/-- A root command with no dependencies at all. -/
def rootEmpty : GoPackage := ⟨"main", "", "", "/app", []⟩

/-- Orchestrator environment with no dependencies to discover. -/
def envEmpty : StagerEnv :=
  ⟨fun _ d => if d == "/app" then some rootEmpty else none,
   fun _ _ _ => none⟩

/-- An external package living under the GOPATH source root. -/
def pkgP : GoPackage :=
  ⟨"p", "github.com/x/p", "/gp/src", "/gp/src/github.com/x/p", []⟩

/-- A root command importing the external package. -/
def rootP : GoPackage := ⟨"main", "", "", "/app", ["github.com/x/p"]⟩

/-- Orchestrator environment discovering one external package. -/
def envP : StagerEnv :=
  ⟨fun _ d => if d == "/app" then some rootP else none,
   fun _ p _ => if p == "github.com/x/p" then some pkgP else none⟩

/-! Claim C1. -/

/-- C1 (as written, refuted here): in standard mode the Bundler would be
a no-op and the only copy would be the final full-root copy.  In the
standard-mode run whose root imports one external package, every pass
bundles that package into the output root (under its bare canonical
path, since the vendor subdirectory is empty in standard mode), so the
copy-call list is not just the final full-root copy. -/
theorem standard_bundler_not_noop :
    ¬ ((stagerRun envP 8 ⟨false, ""⟩ "/app" "/stage" "/gp").copies =
        [⟨"/stage", ".", "/app", true⟩]) := by decide

/-- C1 (amended): in standard mode the Bundler still runs with an empty
vendor subdirectory: the copy calls of a successful run are exactly the
bundle calls of the three per-minor-version passes (each targeting the
output root joined with the bare canonical path) followed by the final
full-root copy; the final copy is the only copy exactly when every pass
resolves an empty package list. -/
theorem standard_mode_copies (env : StagerEnv) (fuel : Nat) (c : Config)
    (src dst gopath : String) (hstd : c.isFlex = false)
    (h6 : (stagerPass env gopath ["appengine"] skippedPackagesInit fuel
      src false 6).2 = none)
    (h7 : (stagerPass env gopath ["appengine"] skippedPackagesInit fuel
      src false 7).2 = none)
    (h8 : (stagerPass env gopath ["appengine"] skippedPackagesInit fuel
      src false 8).2 = none) :
    ((stagerRun env fuel c src dst gopath).copies =
      bundleCalls dst "" (stagerPass env gopath ["appengine"]
          skippedPackagesInit fuel src false 6).1.packages ++
        (bundleCalls dst "" (stagerPass env gopath ["appengine"]
            skippedPackagesInit fuel src false 7).1.packages ++
          (bundleCalls dst "" (stagerPass env gopath ["appengine"]
              skippedPackagesInit fuel src false 8).1.packages ++
            [⟨dst, ".", src, true⟩]))) ∧
    (stagerRun env fuel c src dst gopath).exitCode = 0 ∧
    ((stagerPass env gopath ["appengine"] skippedPackagesInit fuel src
        false 6).1.packages = [] →
      (stagerPass env gopath ["appengine"] skippedPackagesInit fuel src
        false 7).1.packages = [] →
      (stagerPass env gopath ["appengine"] skippedPackagesInit fuel src
        false 8).1.packages = [] →
      (stagerRun env fuel c src dst gopath).copies =
        [⟨dst, ".", src, true⟩]) := by
  have hrun : stagerRun env fuel c src dst gopath =
      ⟨(bundleCalls dst "" (stagerPass env gopath ["appengine"]
          skippedPackagesInit fuel src false 6).1.packages ++
        (bundleCalls dst "" (stagerPass env gopath ["appengine"]
            skippedPackagesInit fuel src false 7).1.packages ++
          (bundleCalls dst "" (stagerPass env gopath ["appengine"]
              skippedPackagesInit fuel src false 8).1.packages ++ []))) ++
        [⟨dst, ".", src, true⟩], 0, [], skippedPackagesInit⟩ := by
    unfold stagerRun
    rw [hstd]
    simp only [Bool.false_eq_true, if_false, minorVersions,
      effectiveSkippedPackages, stagerPasses, h6, h7, h8]
    rw [if_pos trivial]
  refine ⟨?_, ?_, ?_⟩
  · rw [hrun]
    dsimp only
    simp [List.append_assoc]
  · rw [hrun]
  · intro e6 e7 e8
    rw [hrun]
    simp [e6, e7, e8, bundleCalls]

/-- Witness for the amended C1 on the empty environment: with no
resolved packages, the only copy is the final full-root copy. -/
theorem standard_mode_copies_witness :
    ((⟨false, ""⟩ : Config).isFlex = false) ∧
    ((stagerPass envEmpty "/gp" ["appengine"] skippedPackagesInit 8 "/app"
      false 6).2 = none) ∧
    ((stagerRun envEmpty 8 ⟨false, ""⟩ "/app" "/stage" "/gp").copies =
      [⟨"/stage", ".", "/app", true⟩]) := by
  have h := standard_mode_copies envEmpty 8 ⟨false, ""⟩ "/app" "/stage"
    "/gp" (by decide) (by decide) (by decide) (by decide)
  exact ⟨by decide, by decide, h.2.2 (by decide) (by decide) (by decide)⟩

/-! Claim C2. -/

/-- C2 (as written, refuted here): the Bundler would always use the
fully recursive mode of the Tree Copier.  The `bundle` body calls
`copyTree` with the recursive flag set to `false`, so already a
one-package dependency list yields a non-recursive call. -/
theorem bundle_uses_nonrecursive :
    ¬ (∀ cc ∈ bundleCalls "/stage" "_gopath/src" [pkgP],
        cc.recursive = true) := by decide

/-- The writes of a non-recursive tree copy are exactly the top-level
regular files of the source entry list that are not excluded: no entry
of any subdirectory is written. -/
theorem copyTreeGo_nonrecursive (dstDir : String) :
    ∀ (entries : List (String × FsTree)) (w : String × String),
      w ∈ copyTreeGo entries dstDir false →
      ∃ n content, (n, FsTree.file content) ∈ entries ∧
        mapGetOr skipFiles n = false ∧
        w = (joinPath dstDir n, content) := by
  intro entries
  induction entries with
  | nil =>
    intro w hw
    rw [copyTreeGo.eq_def] at hw
    simp at hw
  | cons e rest ih =>
    obtain ⟨n, t⟩ := e
    intro w hw
    by_cases hskip : mapGetOr skipFiles n = true
    · rw [show copyTreeGo ((n, t) :: rest) dstDir false =
          copyTreeGo rest dstDir false from by
        rw [copyTreeGo.eq_def]
        simp [hskip]] at hw
      rcases ih w hw with ⟨n2, c2, hmem, hs, hw2⟩
      exact ⟨n2, c2, List.mem_cons_of_mem _ hmem, hs, hw2⟩
    · have hskipf : mapGetOr skipFiles n = false := by simpa using hskip
      cases t with
      | file c =>
        rw [show copyTreeGo ((n, FsTree.file c) :: rest) dstDir false =
            (joinPath dstDir n, c) :: copyTreeGo rest dstDir false from by
          rw [copyTreeGo.eq_def]
          simp [hskipf]] at hw
        rcases List.mem_cons.mp hw with hw | hw
        · exact ⟨n, c, List.mem_cons_self _ _, hskipf, hw⟩
        · rcases ih w hw with ⟨n2, c2, hmem, hs, hw2⟩
          exact ⟨n2, c2, List.mem_cons_of_mem _ hmem, hs, hw2⟩
      | dir sub =>
        rw [show copyTreeGo ((n, FsTree.dir sub) :: rest) dstDir false =
            copyTreeGo rest dstDir false from by
          rw [copyTreeGo.eq_def]
          simp [hskipf]] at hw
        rcases ih w hw with ⟨n2, c2, hmem, hs, hw2⟩
        exact ⟨n2, c2, List.mem_cons_of_mem _ hmem, hs, hw2⟩

/-- C2 (amended): for every package in the dependency list, the Bundler
issues one copy call into the output root under the vendor subdirectory
joined with the canonical path, always with the recursive flag off, and
such a non-recursive call writes exactly the non-excluded top-level
regular files of the package directory (subdirectories are skipped, not
copied). -/
theorem bundle_calls_spec (dst vendorDir : String) (deps : List GoPackage)
    (pkg : GoPackage) (hmem : pkg ∈ deps) :
    ((⟨dst, joinPath vendorDir pkg.importPath,
        joinPath pkg.srcRoot pkg.importPath, false⟩ : CopyCall) ∈
      bundleCalls dst vendorDir deps) ∧
    (∀ cc ∈ bundleCalls dst vendorDir deps, cc.recursive = false) ∧
    (∀ (entries : List (String × FsTree)) (w : String × String),
      w ∈ copyTreeGo entries (joinPath vendorDir pkg.importPath) false →
      ∃ n content, (n, FsTree.file content) ∈ entries ∧
        mapGetOr skipFiles n = false ∧
        w = (joinPath (joinPath vendorDir pkg.importPath) n, content)) := by
  refine ⟨List.mem_map.mpr ⟨pkg, hmem, rfl⟩, ?_,
    copyTreeGo_nonrecursive _⟩
  intro cc hcc
  rcases List.mem_map.mp hcc with ⟨p2, hp2, rfl⟩
  rfl

/-- Witness for the amended C2 at a one-package dependency list. -/
theorem bundle_calls_spec_witness :
    (pkgP ∈ [pkgP]) ∧
    (((⟨"/stage", joinPath "_gopath/src" pkgP.importPath,
        joinPath pkgP.srcRoot pkgP.importPath, false⟩ : CopyCall) ∈
      bundleCalls "/stage" "_gopath/src" [pkgP]) ∧
    (∀ cc ∈ bundleCalls "/stage" "_gopath/src" [pkgP],
      cc.recursive = false) ∧
    (∀ (entries : List (String × FsTree)) (w : String × String),
      w ∈ copyTreeGo entries (joinPath "_gopath/src" pkgP.importPath)
        false →
      ∃ n content, (n, FsTree.file content) ∈ entries ∧
        mapGetOr skipFiles n = false ∧
        w = (joinPath (joinPath "_gopath/src" pkgP.importPath) n,
          content))) :=
  ⟨by decide,
    bundle_calls_spec "/stage" "_gopath/src" [pkgP] pkgP (by decide)⟩

/-! Claim C3. -/

/-- C3 (code bug): a successful run exits with code 0 but writes nothing
at all to the standard output stream, although the usage documentation
of the tool promises the staged manifest path there: no statement in
`main` writes to that stream.  The theorem evaluates a successful
standard-mode run: the exit code is 0, the copy list ends with the
full-root copy, and the recorded standard output is empty. -/
theorem success_run_prints_nothing_to_stdout :
    stagerRun envEmpty 8 ⟨false, ""⟩ "/app" "/stage" "/gp" =
      ⟨[⟨"/stage", ".", "/app", true⟩], 0, [], skippedPackagesInit⟩ := by
  decide

/-! Claim C4. -/

/-- C4 (as written, refuted here): the skip map would never be mutated
in any platform mode.  In flexible mode the startup override rewrites
the appengine entry, so the map in effect differs from the literal. -/
theorem skipset_mutated_in_flex :
    effectiveSkippedPackages true ≠ skippedPackagesInit := by decide

/-- C4 (amended): the file-skip map is a constant the program never
writes; the package-skip map is left untouched in standard mode, and in
flexible mode it is written exactly once, at startup, turning the
appengine entry off and changing no other key; every run thereafter
consults precisely the map derived at startup. -/
theorem skipset_mutation_only_appengine :
    (effectiveSkippedPackages false = skippedPackagesInit) ∧
    (effectiveSkippedPackages true =
      mapSet skippedPackagesInit "appengine" false) ∧
    (mapGetOr skippedPackagesInit "appengine" = true) ∧
    (mapGetOr (effectiveSkippedPackages true) "appengine" = false) ∧
    (∀ k, k ≠ "appengine" →
      mapGetOr (effectiveSkippedPackages true) k =
        mapGetOr skippedPackagesInit k) ∧
    (∀ (env : StagerEnv) (fuel : Nat) (c : Config) (src dst gopath : String),
      (stagerRun env fuel c src dst gopath).skipMap =
        effectiveSkippedPackages c.isFlex) := by
  refine ⟨rfl, rfl, by decide, by decide, ?_, ?_⟩
  · intro k hk
    have hk2 : ("appengine" == k) = false :=
      beq_eq_false_iff_ne.mpr (fun hh => hk hh.symm)
    have h1 : effectiveSkippedPackages true =
        ("appengine", false) :: skippedPackagesInit.tail := by decide
    have h0 : skippedPackagesInit =
        ("appengine", true) :: skippedPackagesInit.tail := by decide
    rw [h1]
    conv_rhs => rw [h0]
    unfold mapGetOr
    rw [List.find?_cons_of_neg _ (by simp [hk2]),
      List.find?_cons_of_neg _ (by simp [hk2])]
  · intro env fuel c src dst gopath
    unfold stagerRun
    dsimp only
    rw [apply_ite StagerResult.skipMap]
    dsimp only
    rw [ite_self]

/-- Witness for the amended C4: the entry for `fmt` is unchanged by the
flexible-mode override. -/
theorem skipset_mutation_only_appengine_witness :
    (("fmt" : String) ≠ "appengine") ∧
    (mapGetOr (effectiveSkippedPackages true) "fmt" =
      mapGetOr skippedPackagesInit "fmt") :=
  ⟨by decide,
    skipset_mutation_only_appengine.2.2.2.2.1 "fmt" (by decide)⟩

end GoAppStager
